import Mathlib

/-!
Verification of the moderation-gateway pipeline (`main.go`).

The Go source is shallowly embedded: text is a list of characters, JSON
bodies are association lists over a JSON value type, and the HTTP calls
made by the moderation client are abstracted by an oracle giving the
outcome (transport error, status code, parseable body or not) of each
call.  The handler `handleChatCompletions` is embedded from the point
after the request body has been parsed; its observable behaviour is the
final decision (forward / reject / server error), the number of
moderation calls performed, and the contents appended to the flag log.
-/

namespace ApiModerate

/-- Text is modelled as a sequence of characters (Go `string`, indexed
by `len`). -/
abbrev Text := List Char

/-- `type Message struct { Role, Content }`. -/
structure Message where
  role : String
  content : Text
deriving DecidableEq, Repr

/-- `type Config struct {...}` — the YAML configuration, immutable after
load. -/
structure Config where
  openAIAPIKey : String
  moderationAPIURL : String
  targetURL : String
  port : Nat
  warningMsg : String
  minCharsModerate : Nat
  fullContextModerate : Bool
  whiteListModels : List String
deriving Repr

/-- `type ModerationResponse struct { Results []struct{ Flagged bool } }`,
keeping only the flagged bit of each result. -/
structure ModerationResponse where
  results : List Bool
deriving DecidableEq, Repr

/-- `flagged := len(moderationResp.Results) > 0 && moderationResp.Results[0].Flagged`. -/
def respFlagged (r : ModerationResponse) : Bool :=
  match r.results with
  | [] => false
  | f :: _ => f

/-- Outcome of one HTTP call to the moderation endpoint: a transport
error (`httpClient.Do` fails), or a response with a status code and a
body that either decodes into `ModerationResponse` (`some`) or does not
(`none`). -/
inductive HttpOutcome where
  | transportError
  | response (status : Nat) (body : Option ModerationResponse)
deriving DecidableEq, Repr

/-- The error cases of `moderateContent`. -/
inductive ModError where
  | transport
  | badStatus (code : Nat)
  | parse
deriving DecidableEq, Repr

/-- The moderation-model selection in `moderateContent`:
`model := "text-moderation-latest"; if len(content) < 4096 { model = "omni-moderation-latest" }`. -/
def selectModerationModel (content : Text) : String :=
  if content.length < 4096 then "omni-moderation-latest" else "text-moderation-latest"

/-- The status/parse handling of `moderateContent` applied to one HTTP
outcome: transport error is an error; a status other than 200 is an
error; an undecodable body is an error; otherwise the verdict is the
first result's flagged bit. -/
def moderateOutcome (o : HttpOutcome) : Except ModError Bool :=
  match o with
  | HttpOutcome.transportError => Except.error ModError.transport
  | HttpOutcome.response status body =>
    if status ≠ 200 then Except.error (ModError.badStatus status)
    else
      match body with
      | none => Except.error ModError.parse
      | some r => Except.ok (respFlagged r)

/-- `func moderateContent(content string) (bool, error)`: select the
moderation model from the chunk length, call the endpoint (abstracted by
the oracle `http`, a function of model and input), and interpret the
outcome. -/
def moderateContent (http : String → Text → HttpOutcome) (content : Text) :
    Except ModError Bool :=
  moderateOutcome (http (selectModerationModel content) content)

/-- `func getUserContent(messages []Message) string`: contents of every
message whose role is "user" or "system", in order, joined by a single
space. -/
def getUserContent (messages : List Message) : Text :=
  List.intercalate [' ']
    ((messages.filter fun m => m.role == "user" || m.role == "system").map Message.content)

/-- The last-message override in `handleChatCompletions`: if the message
list is non-empty, scan from the end backward and take the content of
the first message whose role is "user"; when no such message exists the
previously computed value `dflt` is kept. -/
def lastUserContent (messages : List Message) (dflt : Text) : Text :=
  if messages.isEmpty then dflt
  else
    match messages.reverse.find? (fun m => m.role == "user") with
    | some m => m.content
    | none => dflt

/-- The text submitted to the moderation-threshold check: the
full-context extraction, overridden by the last-user-message scan when
`full_context_moderate` is false. -/
def moderationText (fullContextModerate : Bool) (messages : List Message) : Text :=
  if fullContextModerate then getUserContent messages
  else lastUserContent messages (getUserContent messages)

/-- JSON values, for the generic-map rewrite of the request body. -/
inductive JsonValue where
  | str : String → JsonValue
  | num : Int → JsonValue
  | bool : Bool → JsonValue
  | null : JsonValue
  | arr : List JsonValue → JsonValue
  | obj : List (String × JsonValue) → JsonValue

/-- `func replaceModelValue(input []byte, newModelValue string)`: decode
the body into a generic map, overwrite the "model" entry with the new
value when it exists and is a string, re-encode.  The body is modelled
as the decoded top-level object (an association list of fields). -/
def replaceModelValue : List (String × JsonValue) → String → List (String × JsonValue)
  | [], _ => []
  | kv :: rest, newModelValue =>
    (if kv.1 = "model" then
      match kv.2 with
      | JsonValue.str _ => (kv.1, JsonValue.str newModelValue)
      | v => (kv.1, v)
    else kv) :: replaceModelValue rest newModelValue

/-- The size-based model substitution of `handleChatCompletions`:
`replaceModel := ""`, set to "glm-4-air" when `len > 10*1024 && len < 100*1024`,
then set to "glm-4-flash" when `len > 100*1024`. -/
def computeReplaceModel (n : Nat) : String :=
  let r1 := if n > 10 * 1024 ∧ n < 100 * 1024 then "glm-4-air" else ""
  let r2 := if n > 100 * 1024 then "glm-4-flash" else r1
  r2

/-- `if replaceModel != "" { body = replaceModelValue(body, replaceModel) }`,
where the length fed to the decision is the full-context extraction's
length. -/
def rewriteBody (body : List (String × JsonValue)) (n : Nat) :
    List (String × JsonValue) :=
  let replaceModel := computeReplaceModel n
  if replaceModel ≠ "" then replaceModelValue body replaceModel else body

/-- The chunking loop of `splitText` for texts longer than the limit:
`for i := 0; i < len(text); i += 48000 { result = append(result, text[i:min(i+48000,len)]) }`. -/
def chunkList (text : Text) : List Text :=
  if _h : text = [] then []
  else text.take 48000 :: chunkList (text.drop 48000)
termination_by text.length
decreasing_by
  simp only [List.length_drop]
  have : 0 < text.length := List.length_pos.mpr _h
  omega

/-- `func splitText(text string) []string`: texts within the 48,000
limit are returned whole as a single segment, longer texts are cut into
consecutive 48,000-character slices. -/
def splitText (text : Text) : List Text :=
  if text.length ≤ 48000 then [text] else chunkList text

/-- One choice of the synthesized rejection payload. -/
structure Choice where
  index : Nat
  delta : List (String × String)
  logprobs : Option String
  finishReason : String
deriving DecidableEq, Repr

/-- `type OpenAIStyleResponse struct {...}`. -/
structure OpenAIStyleResponse where
  id : String
  object : String
  created : Int
  model : String
  systemFingerprint : String
  choices : List Choice
deriving DecidableEq, Repr

/-- `func generateOpenAIStyleResponse(warningMessage, model string)`.
The two random identifiers and the timestamp are inputs of the
embedding (`uuid.New().String()` twice and `time.Now().Unix()`). -/
def generateOpenAIStyleResponse (warningMessage model : String)
    (uuid1 uuid2 : String) (now : Int) : OpenAIStyleResponse :=
  let model := if model = "" then "gpt-4o-mini" else model
  { id := "chatcmpl-" ++ uuid1.take 24
    object := "chat.completion.chunk"
    created := now
    model := model
    systemFingerprint := "fp_" ++ uuid2.take 12
    choices := [⟨0, [("content", warningMessage)], none, "stop"⟩] }

/-- How the rejection is delivered to the client: one SSE data frame
holding the payload followed by a terminal frame, or a plain JSON body
with a status code. -/
inductive RejectionOutput where
  | sse (payload : OpenAIStyleResponse) (terminal : String)
  | json (status : Nat) (payload : OpenAIStyleResponse)
deriving DecidableEq, Repr

/-- `func handleFlaggedContent(c *gin.Context, isStream bool, model string)`:
build the rejection payload from the configured warning message and the
client's model; stream it as a single SSE event plus "[DONE]" when the
client asked for streaming, otherwise answer it as JSON with status 200. -/
def handleFlaggedContent (warningMsg : String) (isStream : Bool) (model : String)
    (uuid1 uuid2 : String) (now : Int) : RejectionOutput :=
  let response := generateOpenAIStyleResponse warningMsg model uuid1 uuid2 now
  if isStream then RejectionOutput.sse response "[DONE]"
  else RejectionOutput.json 200 response

/-- `type OpenAIChatReq struct { Model, Messages, Stream }` — the parsed
request. -/
structure ChatReq where
  model : String
  messages : List Message
  stream : Bool
deriving Repr

/-- Result of one pass of the chunk-moderation loop. -/
inductive LoopResult where
  | err (e : ModError)
  | flagged (chunk : Text)
  | allClear
deriving DecidableEq, Repr

/-- The `for _, userContent := range userContents` loop of
`handleChatCompletions`: moderate the chunks in order; stop at the first
error or the first flagged chunk.  The second component counts the
moderation calls performed. -/
def moderationLoop (http : String → Text → HttpOutcome) :
    List Text → LoopResult × Nat
  | [] => (LoopResult.allClear, 0)
  | c :: rest =>
    match moderateContent http c with
    | Except.error e => (LoopResult.err e, 1)
    | Except.ok true => (LoopResult.flagged c, 1)
    | Except.ok false =>
      let r := moderationLoop http rest
      (r.1, r.2 + 1)

/-- The client-visible outcome of the handler. -/
inductive PipelineResult where
  | serverError (status : Nat) (msg : String)
  | rejected (out : RejectionOutput)
  | forwarded (body : List (String × JsonValue))

/-- Observable behaviour of one request: the outcome, the number of
moderation calls made, and the texts appended to the flag log. -/
structure PipeOutput where
  result : PipelineResult
  modCalls : Nat
  logged : List Text

/-- `func handleChatCompletions(c *gin.Context)`, from the point where
the body has been parsed into `chatReq` (parse failures answer a client
error before any of the modelled logic runs).  `body` is the decoded
top-level JSON object of the raw body; `http` is the moderation
endpoint oracle; `uuid1`, `uuid2`, `now` feed the rejection payload. -/
def handleChatCompletions (config : Config) (http : String → Text → HttpOutcome)
    (chatReq : ChatReq) (body : List (String × JsonValue))
    (uuid1 uuid2 : String) (now : Int) : PipeOutput :=
  let body1 := rewriteBody body (getUserContent chatReq.messages).length
  if config.whiteListModels.contains chatReq.model then
    ⟨PipelineResult.forwarded body1, 0, []⟩
  else
    let userContent := moderationText config.fullContextModerate chatReq.messages
    if userContent.length ≥ config.minCharsModerate then
      match moderationLoop http (splitText userContent) with
      | (LoopResult.err _, n) =>
        ⟨PipelineResult.serverError 500 "Moderation error", n, []⟩
      | (LoopResult.flagged c, n) =>
        ⟨PipelineResult.rejected
          (handleFlaggedContent config.warningMsg chatReq.stream chatReq.model uuid1 uuid2 now),
         n, [c]⟩
      | (LoopResult.allClear, n) => ⟨PipelineResult.forwarded body1, n, []⟩
    else ⟨PipelineResult.forwarded body1, 0, []⟩

/-! ### Helper lemmas -/

/-- Unfolding `chunkList` on the empty text. -/
theorem chunkList_nil : chunkList [] = [] := by
  rw [chunkList]
  simp

/-- Unfolding `chunkList` on a non-empty text. -/
theorem chunkList_cons (text : Text) (h : text ≠ []) :
    chunkList text = text.take 48000 :: chunkList (text.drop 48000) := by
  rw [chunkList]
  simp [h]

/-- `chunkList` yields the empty sequence only for the empty text. -/
theorem chunkList_eq_nil_iff (text : Text) : chunkList text = [] ↔ text = [] := by
  constructor
  · intro h
    by_contra hne
    rw [chunkList_cons text hne] at h
    cases h
  · intro h
    subst h
    exact chunkList_nil

/-- Every chunk produced by `chunkList` is at most 48,000 characters. -/
theorem chunkList_length_le (n : Nat) :
    ∀ l : Text, l.length ≤ n → ∀ c ∈ chunkList l, c.length ≤ 48000 := by
  induction n with
  | zero =>
    intro l hl c hc
    have hnil : l = [] := List.eq_nil_of_length_eq_zero (Nat.le_zero.mp hl)
    subst hnil
    rw [chunkList_nil] at hc
    cases hc
  | succ n ih =>
    intro l hl c hc
    by_cases h : l = []
    · subst h
      rw [chunkList_nil] at hc
      cases hc
    · rw [chunkList_cons l h] at hc
      rcases List.mem_cons.mp hc with h1 | h2
      · subst h1
        simp only [List.length_take]
        exact Nat.min_le_left _ _
      · have hpos : 0 < l.length := List.length_pos.mpr h
        have hlen : (l.drop 48000).length ≤ n := by
          simp only [List.length_drop]
          omega
        exact ih (l.drop 48000) hlen c h2

/-- Concatenating the chunks of `chunkList` reproduces the text. -/
theorem chunkList_join (n : Nat) :
    ∀ l : Text, l.length ≤ n → (chunkList l).flatten = l := by
  induction n with
  | zero =>
    intro l hl
    have hnil : l = [] := List.eq_nil_of_length_eq_zero (Nat.le_zero.mp hl)
    subst hnil
    rw [chunkList_nil]
    rfl
  | succ n ih =>
    intro l hl
    by_cases h : l = []
    · subst h
      rw [chunkList_nil]
      rfl
    · rw [chunkList_cons l h]
      have hpos : 0 < l.length := List.length_pos.mpr h
      have hlen : (l.drop 48000).length ≤ n := by
        simp only [List.length_drop]
        omega
      rw [List.flatten_cons, ih (l.drop 48000) hlen, List.take_append_drop]

/-- Every chunk of `chunkList` except the last has length exactly 48,000. -/
theorem chunkList_dropLast (n : Nat) :
    ∀ l : Text, l.length ≤ n → ∀ c ∈ (chunkList l).dropLast, c.length = 48000 := by
  induction n with
  | zero =>
    intro l hl c hc
    have hnil : l = [] := List.eq_nil_of_length_eq_zero (Nat.le_zero.mp hl)
    subst hnil
    rw [chunkList_nil] at hc
    cases hc
  | succ n ih =>
    intro l hl c hc
    by_cases h : l = []
    · subst h
      rw [chunkList_nil] at hc
      cases hc
    · rw [chunkList_cons l h] at hc
      by_cases hr : chunkList (l.drop 48000) = []
      · rw [hr] at hc
        cases hc
      · obtain ⟨r, rs, hrs⟩ := List.exists_cons_of_ne_nil hr
        rw [hrs, List.dropLast_cons₂] at hc
        have hdrop : l.drop 48000 ≠ [] := by
          intro hd
          exact hr ((chunkList_eq_nil_iff _).mpr hd)
        have hlong : 48000 < l.length := by
          by_contra hle
          exact hdrop (List.drop_eq_nil_of_le (by omega))
        rcases List.mem_cons.mp hc with h1 | h2
        · subst h1
          simp only [List.length_take]
          omega
        · have hpos : 0 < l.length := List.length_pos.mpr h
          have hlen : (l.drop 48000).length ≤ n := by
            simp only [List.length_drop]
            omega
          rw [← hrs] at h2
          exact ih (l.drop 48000) hlen c h2

/-- `splitText` never returns an empty sequence. -/
theorem splitText_ne_nil (text : Text) : splitText text ≠ [] := by
  unfold splitText
  split
  · simp
  · next hgt =>
    have hne : text ≠ [] := by
      intro h
      subst h
      simp at hgt
    rw [chunkList_cons text hne]
    simp

/-- A concrete evaluation of `splitText` on a 50,000-character text:
one full 48,000-character chunk followed by the 2,000-character rest. -/
theorem splitText_fifty :
    splitText (List.replicate 50000 'a') =
      [List.replicate 48000 'a', List.replicate 2000 'a'] := by
  have h1 : (List.replicate 50000 'a' : Text) ≠ [] := by
    apply List.ne_nil_of_length_pos
    rw [List.length_replicate]
    omega
  have h2 : (List.replicate 2000 'a' : Text) ≠ [] := by
    apply List.ne_nil_of_length_pos
    rw [List.length_replicate]
    omega
  have hlen : ¬((List.replicate 50000 'a' : Text).length ≤ 48000) := by
    rw [List.length_replicate]
    omega
  have htake : (List.replicate 50000 'a').take 48000 = List.replicate 48000 'a' := by
    rw [List.take_replicate]
    norm_num
  have hdrop : (List.replicate 50000 'a').drop 48000 = List.replicate 2000 'a' := by
    rw [List.drop_replicate]
  have htake2 : (List.replicate 2000 'a').take 48000 = List.replicate 2000 'a' := by
    rw [List.take_replicate]
    norm_num
  have hdrop2 : (List.replicate 2000 'a').drop 48000 = ([] : Text) := by
    rw [List.drop_replicate]
    rfl
  rw [splitText, if_neg hlen, chunkList_cons _ h1, htake, hdrop,
    chunkList_cons _ h2, htake2, hdrop2, chunkList_nil]

/-- If a prefix of the scan fails the predicate, `find?` continues on
the rest. -/
theorem find?_skip {α : Type} (p : α → Bool) (l1 l2 : List α)
    (h : ∀ x ∈ l1, p x = false) : (l1 ++ l2).find? p = l2.find? p := by
  induction l1 with
  | nil => rfl
  | cons a as ih =>
    rw [List.cons_append, List.find?_cons_of_neg, ih]
    · intro x hx
      exact h x (List.mem_cons_of_mem a hx)
    · simp [h a (List.mem_cons_self a as)]

/-- The moderation loop when every chunk comes back unflagged: all
chunks are moderated and the verdict is clear. -/
theorem moderationLoop_all_ok (http : String → Text → HttpOutcome)
    (chunks : List Text)
    (h : ∀ c ∈ chunks, moderateContent http c = Except.ok false) :
    moderationLoop http chunks = (LoopResult.allClear, chunks.length) := by
  induction chunks with
  | nil => rfl
  | cons c rest ih =>
    simp only [moderationLoop]
    rw [h c (List.mem_cons_self c rest),
      ih (fun x hx => h x (List.mem_cons_of_mem c hx))]
    simp

/-- The moderation loop short-circuits at the first flagged chunk:
exactly the preceding clear chunks plus the flagged one are moderated. -/
theorem moderationLoop_flagged (http : String → Text → HttpOutcome)
    (pre : List Text) (c : Text) (post : List Text)
    (hpre : ∀ x ∈ pre, moderateContent http x = Except.ok false)
    (hc : moderateContent http c = Except.ok true) :
    moderationLoop http (pre ++ c :: post) = (LoopResult.flagged c, pre.length + 1) := by
  induction pre with
  | nil =>
    simp only [List.nil_append, moderationLoop]
    rw [hc]
    rfl
  | cons p ps ih =>
    have hcons : moderationLoop http ((p :: ps) ++ c :: post) =
        ((moderationLoop http (ps ++ c :: post)).1,
         (moderationLoop http (ps ++ c :: post)).2 + 1) := by
      simp only [List.cons_append, moderationLoop]
      rw [hpre p (List.mem_cons_self p ps)]
      rfl
    rw [hcons, ih (fun x hx => hpre x (List.mem_cons_of_mem p hx))]
    simp

/-- The moderation loop stops at the first erroring chunk. -/
theorem moderationLoop_err (http : String → Text → HttpOutcome)
    (pre : List Text) (c : Text) (post : List Text) (e : ModError)
    (hpre : ∀ x ∈ pre, moderateContent http x = Except.ok false)
    (hc : moderateContent http c = Except.error e) :
    moderationLoop http (pre ++ c :: post) = (LoopResult.err e, pre.length + 1) := by
  induction pre with
  | nil =>
    simp only [List.nil_append, moderationLoop]
    rw [hc]
    rfl
  | cons p ps ih =>
    have hcons : moderationLoop http ((p :: ps) ++ c :: post) =
        ((moderationLoop http (ps ++ c :: post)).1,
         (moderationLoop http (ps ++ c :: post)).2 + 1) := by
      simp only [List.cons_append, moderationLoop]
      rw [hpre p (List.mem_cons_self p ps)]
      rfl
    rw [hcons, ih (fun x hx => hpre x (List.mem_cons_of_mem p hx))]
    simp

/-- The moderation loop on a non-empty chunk list makes at least one
call, whatever the oracle answers. -/
theorem moderationLoop_pos (http : String → Text → HttpOutcome)
    (chunks : List Text) (h : chunks ≠ []) :
    0 < (moderationLoop http chunks).2 := by
  obtain ⟨c, rest, rfl⟩ := List.exists_cons_of_ne_nil h
  simp only [moderationLoop]
  rcases hm : moderateContent http c with e | b
  · simp
  · cases b <;> simp

/-- `replaceModelValue` keeps the field names of the body unchanged. -/
theorem replaceModelValue_keys (body : List (String × JsonValue)) (m : String) :
    (replaceModelValue body m).map Prod.fst = body.map Prod.fst := by
  induction body with
  | nil => rfl
  | cons kv rest ih =>
    simp only [replaceModelValue, List.map_cons, ih]
    by_cases h : kv.1 = "model"
    · rw [if_pos h]
      cases kv.2 <;> rfl
    · rw [if_neg h]

/-- `replaceModelValue` leaves the value of every field other than
"model" unchanged. -/
theorem replaceModelValue_lookup (body : List (String × JsonValue)) (m k : String)
    (hk : k ≠ "model") :
    List.lookup k (replaceModelValue body m) = List.lookup k body := by
  induction body with
  | nil => rfl
  | cons kv rest ih =>
    simp only [replaceModelValue]
    by_cases h : kv.1 = "model"
    · rw [if_pos h]
      have hkk : (k == kv.1) = false := by
        simp [h, hk]
      cases kv.2 <;> simp only [List.lookup, hkk, ih]
    · rw [if_neg h]
      simp only [List.lookup]
      cases hkk : k == kv.1 <;> simp [ih]

/-- Reduction of the handler on the moderation path: when the declared
model is not allow-listed and the moderation text meets the threshold,
the outcome is read off the chunk-moderation loop. -/
theorem handleChatCompletions_moderate
    (config : Config) (http : String → Text → HttpOutcome) (chatReq : ChatReq)
    (body : List (String × JsonValue)) (u1 u2 : String) (now : Int)
    (hw : config.whiteListModels.contains chatReq.model = false)
    (hmin : (moderationText config.fullContextModerate chatReq.messages).length ≥
      config.minCharsModerate) :
    handleChatCompletions config http chatReq body u1 u2 now =
      match moderationLoop http
          (splitText (moderationText config.fullContextModerate chatReq.messages)) with
      | (LoopResult.err _, n) =>
        ⟨PipelineResult.serverError 500 "Moderation error", n, []⟩
      | (LoopResult.flagged c, n) =>
        ⟨PipelineResult.rejected
          (handleFlaggedContent config.warningMsg chatReq.stream chatReq.model u1 u2 now),
         n, [c]⟩
      | (LoopResult.allClear, n) =>
        ⟨PipelineResult.forwarded (rewriteBody body (getUserContent chatReq.messages).length),
         n, []⟩ := by
  simp only [handleChatCompletions, hw]
  rw [if_neg Bool.false_ne_true, if_pos hmin]

/-! ### Claims -/

/-- C1, counterexample: with `full_context_moderate` false and a message
list holding a "system" message but no "user" message, the text
submitted to the moderation-threshold check is the system message's
content, not empty — refuting "if no message with role user exists, the
text is empty". -/
theorem C1_counterexample :
    (∀ m ∈ [Message.mk "system" ['a', 'b']], m.role ≠ "user")
    ∧ moderationText false [Message.mk "system" ['a', 'b']] ≠ [] := by
  decide

/-- C1, amended: in last-message mode the moderation text is the content
of the last message whose role is "user"; when no such message exists it
falls back to the full-context extraction (the space-joined user/system
contents) rather than to empty text. -/
theorem C1_lastMessageFallback (messages : List Message) :
    ((∀ m ∈ messages, m.role ≠ "user") →
      moderationText false messages = getUserContent messages)
    ∧ (∀ pre m post, messages = pre ++ m :: post → m.role = "user" →
        (∀ x ∈ post, x.role ≠ "user") →
        moderationText false messages = m.content) := by
  constructor
  · intro h
    show lastUserContent messages (getUserContent messages) = getUserContent messages
    unfold lastUserContent
    by_cases he : messages.isEmpty
    · rw [if_pos he]
    · rw [if_neg he]
      have hfind : messages.reverse.find? (fun m => m.role == "user") = none := by
        apply List.find?_eq_none.mpr
        intro x hx
        simp only [beq_iff_eq]
        exact h x (List.mem_reverse.mp hx)
      rw [hfind]
  · intro pre m post hmsg hrole hpost
    subst hmsg
    show lastUserContent (pre ++ m :: post) (getUserContent (pre ++ m :: post)) = m.content
    unfold lastUserContent
    rw [if_neg (by simp), List.reverse_append, List.reverse_cons, List.append_assoc,
      List.singleton_append]
    rw [find?_skip _ _ _ ?hfail]
    case hfail =>
      intro x hx
      simp only [beq_eq_false_iff_ne, ne_eq]
      exact hpost x (List.mem_reverse.mp hx)
    rw [List.find?_cons_of_pos _ (by simp [hrole])]

/-- C1, witness: the backward scan picks the last "user" message even
when later non-user messages follow, and a user-free list falls back to
the full-context extraction. -/
theorem C1_lastMessageFallback_witness :
    moderationText false [Message.mk "system" ['s'], Message.mk "user" ['h', 'i'],
        Message.mk "assistant" ['x']] = ['h', 'i']
    ∧ moderationText false [Message.mk "system" ['s']] =
        getUserContent [Message.mk "system" ['s']] := by
  constructor
  · exact (C1_lastMessageFallback _).2 [Message.mk "system" ['s']]
      (Message.mk "user" ['h', 'i']) [Message.mk "assistant" ['x']] rfl rfl (by decide)
  · exact (C1_lastMessageFallback _).1 (by decide)

/-- C2, counterexample: at full-context length exactly 100 KiB (102400,
inside the claim's half-open interval (10 KiB, 100 KiB]) the code
performs no rewrite at all — `replaceModel` stays empty and the body is
left unchanged — whereas the claim requires the mid-tier rewrite
there. -/
theorem C2_counterexample :
    10 * 1024 < 102400 ∧ 102400 ≤ 100 * 1024
    ∧ computeReplaceModel 102400 = ""
    ∧ rewriteBody [("model", JsonValue.str "x")] 102400 = [("model", JsonValue.str "x")]
    ∧ ("" : String) ≠ "glm-4-air" := by
  refine ⟨by norm_num, by norm_num, rfl, rfl, by decide⟩

/-- C2, amended: the rewrite is a pure function of the full-context
length: unchanged for length ≤ 10 KiB and also at exactly 100 KiB;
mid-tier for length strictly between 10 KiB and 100 KiB; fast-tier for
length strictly greater than 100 KiB. -/
theorem C2_modelRewrite (body : List (String × JsonValue)) (n : Nat) :
    ((n ≤ 10 * 1024 ∨ n = 100 * 1024) → rewriteBody body n = body)
    ∧ (10 * 1024 < n → n < 100 * 1024 →
        rewriteBody body n = replaceModelValue body "glm-4-air")
    ∧ (100 * 1024 < n → rewriteBody body n = replaceModelValue body "glm-4-flash") := by
  refine ⟨fun h => ?_, fun h1 h2 => ?_, fun h => ?_⟩
  · have hflash : ¬(n > 100 * 1024) := by omega
    have hair : ¬(n > 10 * 1024 ∧ n < 100 * 1024) := by omega
    simp only [rewriteBody, computeReplaceModel, if_neg hflash, if_neg hair]
    simp
  · have hflash : ¬(n > 100 * 1024) := by omega
    have hair : n > 10 * 1024 ∧ n < 100 * 1024 := ⟨h1, h2⟩
    simp only [rewriteBody, computeReplaceModel, if_neg hflash, if_pos hair]
    rw [if_pos (show ("glm-4-air" : String) ≠ "" by decide)]
  · simp only [rewriteBody, computeReplaceModel, if_pos h]
    rw [if_pos (show ("glm-4-flash" : String) ≠ "" by decide)]

/-- C2, witness: the three regimes at lengths 5000, 20000 and 200000. -/
theorem C2_modelRewrite_witness :
    rewriteBody [("model", JsonValue.str "x")] 5000 = [("model", JsonValue.str "x")]
    ∧ rewriteBody [("model", JsonValue.str "x")] 20000 =
        replaceModelValue [("model", JsonValue.str "x")] "glm-4-air"
    ∧ rewriteBody [("model", JsonValue.str "x")] 200000 =
        replaceModelValue [("model", JsonValue.str "x")] "glm-4-flash" :=
  ⟨(C2_modelRewrite _ 5000).1 (Or.inl (by norm_num)),
   (C2_modelRewrite _ 20000).2.1 (by norm_num) (by norm_num),
   (C2_modelRewrite _ 200000).2.2 (by norm_num)⟩

/-- C3: `splitText` returns segments of length at most 48,000 whose
in-order concatenation is exactly the input, every segment except
possibly the last has length exactly 48,000, and an input within the
limit is returned whole as a single segment. -/
theorem C3_splitText (text : Text) :
    (∀ c ∈ splitText text, c.length ≤ 48000)
    ∧ (splitText text).flatten = text
    ∧ (∀ c ∈ (splitText text).dropLast, c.length = 48000)
    ∧ (text.length ≤ 48000 → splitText text = [text]) := by
  by_cases h : text.length ≤ 48000
  · unfold splitText
    rw [if_pos h]
    refine ⟨?_, by simp, ?_, fun _ => rfl⟩
    · intro c hc
      rw [List.mem_singleton.mp hc]
      exact h
    · intro c hc
      simp at hc
  · unfold splitText
    rw [if_neg h]
    exact ⟨chunkList_length_le text.length text le_rfl,
      chunkList_join text.length text le_rfl,
      chunkList_dropLast text.length text le_rfl,
      fun hc => absurd hc h⟩

/-- C3, witness: a 50,000-character input splits into a full
48,000-character segment plus the rest, and a short input is returned
whole. -/
theorem C3_splitText_witness :
    (List.replicate 48000 'a' ∈ (splitText (List.replicate 50000 'a')).dropLast
      ∧ (List.replicate 48000 'a').length = 48000)
    ∧ ((['a', 'b'] : Text).length ≤ 48000 ∧ splitText ['a', 'b'] = [['a', 'b']]) := by
  have hmem : List.replicate 48000 'a' ∈ (splitText (List.replicate 50000 'a')).dropLast := by
    rw [splitText_fifty]
    exact List.mem_singleton_self _
  exact ⟨⟨hmem, (C3_splitText (List.replicate 50000 'a')).2.2.1 _ hmem⟩,
    ⟨by decide, (C3_splitText ['a', 'b']).2.2.2 (by decide)⟩⟩

/-- C4: when the declared model is in the allow-list the handler makes
no moderation call — whatever the oracle would answer and whatever the
content — and forwards the rewritten-if-applicable body. -/
theorem C4_allowlistBypass
    (config : Config) (http : String → Text → HttpOutcome) (chatReq : ChatReq)
    (body : List (String × JsonValue)) (u1 u2 : String) (now : Int)
    (hw : config.whiteListModels.contains chatReq.model = true) :
    handleChatCompletions config http chatReq body u1 u2 now =
      ⟨PipelineResult.forwarded (rewriteBody body (getUserContent chatReq.messages).length),
       0, []⟩ := by
  simp only [handleChatCompletions, hw]
  rw [if_pos trivial]

/-- C4, witness: an allow-listed model bypasses a moderation oracle that
always fails with a transport error. -/
theorem C4_allowlistBypass_witness :
    (Config.mk "k" "mu" "t" 80 "warn" 0 true ["m"]).whiteListModels.contains
      (ChatReq.mk "m" [Message.mk "user" ['h', 'i']] false).model = true
    ∧ handleChatCompletions (Config.mk "k" "mu" "t" 80 "warn" 0 true ["m"])
        (fun _ _ => HttpOutcome.transportError)
        (ChatReq.mk "m" [Message.mk "user" ['h', 'i']] false)
        [("model", JsonValue.str "m")] "u" "v" 0 =
      ⟨PipelineResult.forwarded [("model", JsonValue.str "m")], 0, []⟩ :=
  ⟨rfl, C4_allowlistBypass _ _ _ _ _ _ _ rfl⟩

/-- C5: the chunk loop short-circuits — if the first flagged chunk is
preceded by `pre.length` clear chunks, exactly `pre.length + 1` calls
are made, the flagged chunk is logged and a rejection is produced; if no
chunk is flagged every chunk is moderated once and the body is
forwarded. -/
theorem C5_shortCircuit
    (config : Config) (http : String → Text → HttpOutcome) (chatReq : ChatReq)
    (body : List (String × JsonValue)) (u1 u2 : String) (now : Int)
    (hw : config.whiteListModels.contains chatReq.model = false)
    (hmin : (moderationText config.fullContextModerate chatReq.messages).length ≥
      config.minCharsModerate) :
    (∀ pre c post,
      splitText (moderationText config.fullContextModerate chatReq.messages) =
        pre ++ c :: post →
      (∀ x ∈ pre, moderateContent http x = Except.ok false) →
      moderateContent http c = Except.ok true →
      handleChatCompletions config http chatReq body u1 u2 now =
        ⟨PipelineResult.rejected
          (handleFlaggedContent config.warningMsg chatReq.stream chatReq.model u1 u2 now),
         pre.length + 1, [c]⟩)
    ∧ ((∀ x ∈ splitText (moderationText config.fullContextModerate chatReq.messages),
        moderateContent http x = Except.ok false) →
      handleChatCompletions config http chatReq body u1 u2 now =
        ⟨PipelineResult.forwarded (rewriteBody body (getUserContent chatReq.messages).length),
         (splitText (moderationText config.fullContextModerate chatReq.messages)).length,
         []⟩) := by
  constructor
  · intro pre c post hsplit hpre hc
    rw [handleChatCompletions_moderate config http chatReq body u1 u2 now hw hmin,
      hsplit, moderationLoop_flagged http pre c post hpre hc]
  · intro hall
    rw [handleChatCompletions_moderate config http chatReq body u1 u2 now hw hmin,
      moderationLoop_all_ok http _ hall]

/-- C5, witness: a flagged single chunk is moderated once, logged and
rejected; a clear single chunk is moderated once and forwarded. -/
theorem C5_shortCircuit_witness :
    handleChatCompletions (Config.mk "k" "mu" "t" 80 "warn" 0 true [])
        (fun _ _ => HttpOutcome.response 200 (some ⟨[true]⟩))
        (ChatReq.mk "gpt" [Message.mk "user" ['b', 'a', 'd']] false)
        [("model", JsonValue.str "gpt")] "u" "v" 0 =
      ⟨PipelineResult.rejected (handleFlaggedContent "warn" false "gpt" "u" "v" 0),
       1, [['b', 'a', 'd']]⟩
    ∧ handleChatCompletions (Config.mk "k" "mu" "t" 80 "warn" 0 true [])
        (fun _ _ => HttpOutcome.response 200 (some ⟨[false]⟩))
        (ChatReq.mk "gpt" [Message.mk "user" ['o', 'k']] false)
        [("model", JsonValue.str "gpt")] "u" "v" 0 =
      ⟨PipelineResult.forwarded [("model", JsonValue.str "gpt")], 1, []⟩ := by
  constructor
  · exact (C5_shortCircuit (Config.mk "k" "mu" "t" 80 "warn" 0 true [])
      (fun _ _ => HttpOutcome.response 200 (some ⟨[true]⟩))
      (ChatReq.mk "gpt" [Message.mk "user" ['b', 'a', 'd']] false)
      [("model", JsonValue.str "gpt")] "u" "v" 0 rfl (Nat.zero_le _)).1
      [] ['b', 'a', 'd'] [] rfl (by intro x hx; cases hx) rfl
  · exact (C5_shortCircuit (Config.mk "k" "mu" "t" 80 "warn" 0 true [])
      (fun _ _ => HttpOutcome.response 200 (some ⟨[false]⟩))
      (ChatReq.mk "gpt" [Message.mk "user" ['o', 'k']] false)
      [("model", JsonValue.str "gpt")] "u" "v" 0 rfl (Nat.zero_le _)).2
      (by intro x hx; rw [List.mem_singleton.mp hx]; rfl)

/-- C6: the synthesized rejection has exactly one choice (index 0, the
warning message under "content" in the delta, null logprobs, finish
reason "stop"); its model is the client's model or the default when the
client's model string is empty; a streaming client gets one SSE data
frame with the payload followed by a terminal "[DONE]" frame, a
non-streaming client gets the payload as a JSON body with status 200. -/
theorem C6_rejectionShape (warning model : String) (isStream : Bool)
    (u1 u2 : String) (now : Int) :
    (generateOpenAIStyleResponse warning model u1 u2 now).choices =
      [⟨0, [("content", warning)], none, "stop"⟩]
    ∧ (generateOpenAIStyleResponse warning model u1 u2 now).model =
      (if model = "" then "gpt-4o-mini" else model)
    ∧ (isStream = true →
      handleFlaggedContent warning isStream model u1 u2 now =
        RejectionOutput.sse (generateOpenAIStyleResponse warning model u1 u2 now) "[DONE]")
    ∧ (isStream = false →
      handleFlaggedContent warning isStream model u1 u2 now =
        RejectionOutput.json 200 (generateOpenAIStyleResponse warning model u1 u2 now)) := by
  refine ⟨rfl, rfl, fun h => ?_, fun h => ?_⟩
  · subst h
    rfl
  · subst h
    rfl

/-- C6, witness: framing at both streaming modes, with an empty client
model on the streaming side. -/
theorem C6_rejectionShape_witness :
    handleFlaggedContent "W" true "" "u" "v" 7 =
      RejectionOutput.sse (generateOpenAIStyleResponse "W" "" "u" "v" 7) "[DONE]"
    ∧ handleFlaggedContent "W" false "M" "u" "v" 7 =
      RejectionOutput.json 200 (generateOpenAIStyleResponse "W" "M" "u" "v" 7) :=
  ⟨(C6_rejectionShape "W" "" true "u" "v" 7).2.2.1 rfl,
   (C6_rejectionShape "W" "M" false "u" "v" 7).2.2.2 rfl⟩

/-- C7: the model rewrite touches at most the "model" field of the
top-level JSON object: the value of every other field is unchanged and
the set of field names is preserved. -/
theorem C7_framePreservation (body : List (String × JsonValue)) (newModel k : String)
    (hk : k ≠ "model") :
    List.lookup k (replaceModelValue body newModel) = List.lookup k body
    ∧ (replaceModelValue body newModel).map Prod.fst = body.map Prod.fst :=
  ⟨replaceModelValue_lookup body newModel k hk, replaceModelValue_keys body newModel⟩

/-- C7, witness: a "temperature" field survives the rewrite with its
value intact. -/
theorem C7_framePreservation_witness :
    ("temperature" : String) ≠ "model"
    ∧ List.lookup "temperature"
        (replaceModelValue
          [("model", JsonValue.str "x"), ("temperature", JsonValue.num 1)] "glm-4-air") =
      List.lookup "temperature"
        [("model", JsonValue.str "x"), ("temperature", JsonValue.num 1)] :=
  ⟨by decide,
   (C7_framePreservation [("model", JsonValue.str "x"), ("temperature", JsonValue.num 1)]
      "glm-4-air" "temperature" (by decide)).1⟩

/-- C8: the moderation client errors exactly on a transport failure, a
non-200 status, or an unparseable body; and an error from any chunk's
moderation call makes the handler answer a server error after exactly
the calls made so far — nothing is forwarded, logged or rejected. -/
theorem C8_moderationErrors
    (config : Config) (http : String → Text → HttpOutcome) (chatReq : ChatReq)
    (body : List (String × JsonValue)) (u1 u2 : String) (now : Int) (o : HttpOutcome) :
    ((∃ e, moderateOutcome o = Except.error e) ↔
      (o = HttpOutcome.transportError
        ∨ (∃ s b, o = HttpOutcome.response s b ∧ s ≠ 200)
        ∨ o = HttpOutcome.response 200 none))
    ∧ (∀ pre c post e,
      config.whiteListModels.contains chatReq.model = false →
      (moderationText config.fullContextModerate chatReq.messages).length ≥
        config.minCharsModerate →
      splitText (moderationText config.fullContextModerate chatReq.messages) =
        pre ++ c :: post →
      (∀ x ∈ pre, moderateContent http x = Except.ok false) →
      moderateContent http c = Except.error e →
      handleChatCompletions config http chatReq body u1 u2 now =
        ⟨PipelineResult.serverError 500 "Moderation error", pre.length + 1, []⟩) := by
  constructor
  · cases o with
    | transportError => simp [moderateOutcome]
    | response s b =>
      by_cases hs : s = 200
      · subst hs
        cases b with
        | none => simp [moderateOutcome]
        | some r => simp [moderateOutcome]
      · cases b with
        | none => simp [moderateOutcome, hs]
        | some r => simp [moderateOutcome, hs]
  · intro pre c post e hw hmin hsplit hpre hc
    rw [handleChatCompletions_moderate config http chatReq body u1 u2 now hw hmin,
      hsplit, moderationLoop_err http pre c post e hpre hc]

/-- C8, witness: a transport error on the only chunk yields the server
error after one call. -/
theorem C8_moderationErrors_witness :
    handleChatCompletions (Config.mk "k" "mu" "t" 80 "warn" 0 true [])
        (fun _ _ => HttpOutcome.transportError)
        (ChatReq.mk "gpt" [Message.mk "user" ['h', 'i']] false)
        [("model", JsonValue.str "gpt")] "u" "v" 0 =
      ⟨PipelineResult.serverError 500 "Moderation error", 1, []⟩ :=
  (C8_moderationErrors _ _ _ _ "u" "v" 0 HttpOutcome.transportError).2 [] ['h', 'i'] []
    ModError.transport rfl (Nat.zero_le _) rfl (by intro x hx; cases hx) rfl

/-- C9: when the model is not allow-listed and the moderation text is
strictly below the configured minimum, no moderation call is made and
the rewritten-if-applicable body is forwarded. -/
theorem C9_belowThreshold
    (config : Config) (http : String → Text → HttpOutcome) (chatReq : ChatReq)
    (body : List (String × JsonValue)) (u1 u2 : String) (now : Int)
    (hw : config.whiteListModels.contains chatReq.model = false)
    (hmin : (moderationText config.fullContextModerate chatReq.messages).length <
      config.minCharsModerate) :
    handleChatCompletions config http chatReq body u1 u2 now =
      ⟨PipelineResult.forwarded (rewriteBody body (getUserContent chatReq.messages).length),
       0, []⟩ := by
  have hge : ¬((moderationText config.fullContextModerate chatReq.messages).length ≥
      config.minCharsModerate) := by omega
  simp only [handleChatCompletions, hw]
  rw [if_neg Bool.false_ne_true, if_neg hge]

/-- C9, witness: a two-character text under a five-character minimum is
forwarded with zero moderation calls even though the oracle would
fail. -/
theorem C9_belowThreshold_witness :
    handleChatCompletions (Config.mk "k" "mu" "t" 80 "warn" 5 true [])
        (fun _ _ => HttpOutcome.transportError)
        (ChatReq.mk "gpt" [Message.mk "user" ['h', 'i']] false)
        [("model", JsonValue.str "gpt")] "u" "v" 0 =
      ⟨PipelineResult.forwarded [("model", JsonValue.str "gpt")], 0, []⟩ :=
  C9_belowThreshold _ _ _ _ _ _ _ rfl (by decide)

/-- C10: the allow-list compares the originally parsed model only — an
allow-listed declared model bypasses moderation (the body forwarded
being the rewritten one), while a non-allow-listed declared model
reaches the moderation loop (at least one call) whenever the threshold
is met, regardless of what the rewritten body's model is. -/
theorem C10_allowlistOriginalModel
    (config : Config) (http : String → Text → HttpOutcome) (chatReq : ChatReq)
    (body : List (String × JsonValue)) (u1 u2 : String) (now : Int) :
    (config.whiteListModels.contains chatReq.model = true →
      handleChatCompletions config http chatReq body u1 u2 now =
        ⟨PipelineResult.forwarded (rewriteBody body (getUserContent chatReq.messages).length),
         0, []⟩)
    ∧ (config.whiteListModels.contains chatReq.model = false →
      (moderationText config.fullContextModerate chatReq.messages).length ≥
        config.minCharsModerate →
      0 < (handleChatCompletions config http chatReq body u1 u2 now).modCalls) := by
  constructor
  · intro hw
    simp only [handleChatCompletions, hw]
    rw [if_pos trivial]
  · intro hw hmin
    rw [handleChatCompletions_moderate config http chatReq body u1 u2 now hw hmin]
    have hne := splitText_ne_nil (moderationText config.fullContextModerate chatReq.messages)
    have hpos := moderationLoop_pos http _ hne
    rcases hloop : moderationLoop http
        (splitText (moderationText config.fullContextModerate chatReq.messages)) with ⟨res, n⟩
    rw [hloop] at hpos
    cases res <;> simpa using hpos

/-- C10, witness: a request whose body carries the allow-listed model
"m" but whose declared model is "other" is still moderated, while the
declared model "m" itself is bypassed. -/
theorem C10_allowlistOriginalModel_witness :
    handleChatCompletions (Config.mk "k" "mu" "t" 80 "warn" 0 true ["m"])
        (fun _ _ => HttpOutcome.transportError)
        (ChatReq.mk "m" [Message.mk "user" ['h', 'i']] false)
        [("model", JsonValue.str "m")] "u" "v" 0 =
      ⟨PipelineResult.forwarded [("model", JsonValue.str "m")], 0, []⟩
    ∧ 0 < (handleChatCompletions (Config.mk "k" "mu" "t" 80 "warn" 0 true ["m"])
        (fun _ _ => HttpOutcome.response 200 (some ⟨[false]⟩))
        (ChatReq.mk "other" [Message.mk "user" ['h', 'i']] false)
        [("model", JsonValue.str "m")] "u" "v" 0).modCalls :=
  ⟨(C10_allowlistOriginalModel _ _ _ _ _ _ _).1 rfl,
   (C10_allowlistOriginalModel _ _ _ _ _ _ _).2 rfl (Nat.zero_le _)⟩

end ApiModerate
